import Mathlib

/-!
# Verification of the steamspecs catalog browser (`src/app.js`)

Shallow embedding of the client-side catalog browser: the numeric
requirement comparator, shard addressing and the session shard cache,
the catalog filter, the persisted user profile (localStorage + JSON
round trip) and the profile form reader.

Modelling conventions:
* JavaScript numbers occurring in this program are exact decimal values
  (they come from decimal literals in JSON documents or from `Number()`
  applied to form input).  They are modelled by `Dec`, a mantissa/scale
  pair denoting `m / 10 ^ e`.  Floating-point rounding is irrelevant to
  every claim considered here and is not modelled.
* JavaScript strings are Lean `String`s; `trim`, `toLowerCase` and
  substring search are modelled by the corresponding Lean functions.
* Platform built-ins (`JSON.stringify`/`JSON.parse`, `Number`,
  `localStorage`) are modelled by concrete executable Lean functions,
  faithful in the properties the program relies on (see each definition).
-/

/-! ## Decimal numbers (model of the JS numbers this program handles) -/

/-- An exact decimal number `m / 10 ^ e`.  Every number this application
stores or reads (JSON number literals, `Number()` of decimal form input)
is of this form. -/
structure Dec where
  m : ℤ
  e : ℕ
deriving DecidableEq, Repr

/-- The rational value denoted by a `Dec`. -/
def Dec.toRat (x : Dec) : ℚ := (x.m : ℚ) / (10 : ℚ) ^ x.e

/-! ## Digit strings

Helpers shared by the decimal printer (model of number serialization)
and the parsers (models of `JSON.parse` and `Number`). -/

/-- The character for the digit `d` (`0 ≤ d ≤ 9`). -/
def digitChar (d : ℕ) : Char := Char.ofNat (48 + d)

/-- Whether `c` is an ASCII digit. -/
def isDigitChar (c : Char) : Bool := 48 ≤ c.toNat && c.toNat ≤ 57

/-- The digit denoted by an ASCII digit character. -/
def charDigit (c : Char) : ℕ := c.toNat - 48

/-- Decimal digits, most significant first; `fuel` bounds the recursion
depth (any `fuel ≥ n` gives the digits of `n`). -/
def msdDigitsAux : ℕ → ℕ → List ℕ
  | 0, _ => []
  | _, 0 => []
  | fuel + 1, n => msdDigitsAux fuel (n / 10) ++ [n % 10]

/-- Decimal digits of `n`, most significant first (empty for `0`). -/
def msdDigits (n : ℕ) : List ℕ := msdDigitsAux n n

/-- Left-pad a digit list with zeros to length at least `k`. -/
def padTo (k : ℕ) (ds : List ℕ) : List ℕ := List.replicate (k - ds.length) 0 ++ ds

/-- Value of a digit list read most-significant-first. -/
def digitsVal (ds : List ℕ) : ℕ := ds.foldl (fun a d => 10 * a + d) 0

/-- Longest leading run of digits of `cs`, as digit values, with the rest. -/
def takeDigits : List Char → List ℕ × List Char
  | [] => ([], [])
  | c :: rest =>
    if isDigitChar c then
      let p := takeDigits rest
      (charDigit c :: p.1, p.2)
    else ([], c :: rest)

/-! ## JS values and the requirement comparator (`src/app.js` lines 59–64) -/

/-- A JavaScript value in a numeric field position: `undefined` (absent
property), `null`, `NaN`, or a number. -/
inductive JsVal where
  | undef
  | null
  | nan
  | num (x : Dec)
deriving DecidableEq, Repr

/-- Comparator status: `unknown`, `good` or `bad`. -/
inductive Status where
  | unknown
  | good
  | bad
deriving DecidableEq, Repr

/-- The comparator's result record `{status, text}`. -/
structure CmpResult where
  status : Status
  text : String
deriving DecidableEq, Repr

/-- The guard `v === null || v === undefined || Number.isNaN(v)` used by
`compareNumeric` on both of its arguments. -/
def numAbsent : JsVal → Bool
  | .null => true
  | .undef => true
  | .nan => true
  | .num _ => false

/-- JS `>=` restricted to the reachable cases of `compareNumeric`: both
arguments are numbers (under its guards no other case is reached; the
value `false` chosen for the unreachable cases matches JS `>=` on
`NaN`/`undefined`). -/
def jsGe : JsVal → JsVal → Bool
  | .num u, .num r => decide (r.m * 10 ^ u.e ≤ u.m * 10 ^ r.e)
  | _, _ => false

/-- Digit characters of `n` (most significant first), `"0"` for zero. -/
def natChars (n : ℕ) : List Char := (padTo 1 (msdDigits n)).map digitChar

/-- Rendering of a `Dec` as JS renders a number into a template string
(exact decimal notation; model of number-to-string conversion). -/
def Dec.render (x : Dec) : List Char :=
  let ds := padTo (x.e + 1) (msdDigits x.m.natAbs)
  let intDs := ds.take (ds.length - x.e)
  let fracDs := ds.drop (ds.length - x.e)
  (if x.m < 0 then ['-'] else []) ++ intDs.map digitChar ++
    (if x.e = 0 then [] else '.' :: fracDs.map digitChar)

/-- String interpolation of a `JsVal` (model of JS template coercion). -/
def JsVal.render : JsVal → String
  | .undef => "undefined"
  | .null => "null"
  | .nan => "NaN"
  | .num x => String.mk x.render

/-- `compareNumeric(userVal, reqVal)` from `src/app.js` lines 59–64. -/
def compareNumeric (userVal reqVal : JsVal) : CmpResult :=
  if numAbsent reqVal then ⟨.unknown, "No numeric requirement"⟩
  else if numAbsent userVal then ⟨.unknown, "Your value missing"⟩
  else if jsGe userVal reqVal then
    ⟨.good, "Meets (" ++ userVal.render ++ " vs " ++ reqVal.render ++ ")"⟩
  else
    ⟨.bad, "Below (" ++ userVal.render ++ " vs " ++ reqVal.render ++ ")"⟩

/-! ## Index, app summaries and shard addressing (`src/app.js` lines 78–81) -/

/-- An entry of the index's `apps` array. -/
structure AppSummary where
  appid : ℕ
  name : Option String
  type : Option String
  has_requirements : Bool
deriving DecidableEq, Repr

/-- The index document `{total_apps, shard_size, apps}`. -/
structure Index where
  total_apps : ℕ
  shard_size : ℕ
  apps : List AppSummary
deriving Repr

/-- `shardForAppid(appid)` from `src/app.js` lines 78–81:
`Math.floor(appid / state.index.shard_size)`, i.e. natural division. -/
def shardForAppid (index : Index) (appid : ℕ) : ℕ :=
  appid / index.shard_size

/-- The executable comparison inside `jsGe` agrees with the rational
order of the denoted values. -/
lemma jsGe_num_iff (u r : Dec) :
    jsGe (.num u) (.num r) = true ↔ r.toRat ≤ u.toRat := by
  simp only [jsGe, decide_eq_true_eq, Dec.toRat]
  rw [div_le_div_iff₀ (by positivity) (by positivity)]
  constructor <;> intro h <;> exact_mod_cast h

/-! ## Requirements, app details and shards (data model, spec §3) -/

/-- A `Requirement` record of a shard document.  Numeric fields are
`JsVal`s: an absent JSON field reads as `undefined`, a JSON `null` as
`null`, a number as `num`. -/
structure Requirement where
  os : Option String
  cpu : Option String
  gpu : Option String
  ram_gb : JsVal
  vram_gb : JsVal
  storage_gb : JsVal
  directx : JsVal
  opengl : JsVal
  vulkan : Option Bool
  notes : Option String
deriving DecidableEq, Repr

/-- The two tiers of requirements of one platform. -/
structure TierReqs where
  minimum : Option Requirement
  recommended : Option Requirement
deriving DecidableEq, Repr

/-- The per-platform requirement table of an app. -/
structure Requirements where
  pc : TierReqs
  mac : TierReqs
  linux : TierReqs
deriving DecidableEq, Repr

/-- An `AppDetail` record of a shard document. -/
structure AppDetail where
  appid : ℕ
  name : Option String
  type : Option String
  requirements : Requirements
deriving DecidableEq, Repr

/-- A shard document: an ordered collection of `AppDetail`s. -/
def Shard := List AppDetail
deriving DecidableEq, Repr

/-! ## The session shard cache (`src/app.js` lines 83–91)

`state.shardCache` is a `Map` from shard id to shard document; it is
modelled as an association list, written only through `loadShard`.
The network (`fetch` + `res.ok` + `res.json()`) is modelled by an
oracle `net : ℕ → Option Shard`: `none` is a non-success response
(`FetchError`), `some` the decoded document. -/

/-- The session shard cache. -/
def ShardCache := List (ℕ × Shard)
deriving DecidableEq, Repr

/-- `state.shardCache.has/get`, as one lookup. -/
def cacheGet : ShardCache → ℕ → Option Shard
  | [], _ => none
  | (k, v) :: rest, k' => if k' = k then some v else cacheGet rest k'

/-- `loadShard(shardId)` from `src/app.js` lines 83–91.  Returns the
result (`Except` models the thrown `Error`), the cache after the call,
and the number of network fetches performed. -/
def loadShard (net : ℕ → Option Shard) (st : ShardCache) (shardId : ℕ) :
    Except String Shard × ShardCache × ℕ :=
  match cacheGet st shardId with
  | some d => (.ok d, st, 0)
  | none =>
    match net shardId with
    | none => (.error ("Failed to load shard " ++ String.mk (natChars shardId)), st, 1)
    | some data => (.ok data, (shardId, data) :: st, 1)

/-! ## The catalog filter (`src/app.js` lines 93–109) -/

/-- JS `||` with a string default: the left operand when truthy
(non-empty), the default otherwise. -/
def jsOrDefault (s dflt : String) : String := if s = "" then dflt else s

/-- JS `s.trim()`: strip leading and trailing whitespace. -/
def jsTrim (s : String) : String :=
  String.mk (((s.toList.dropWhile Char.isWhitespace).reverse.dropWhile
    Char.isWhitespace).reverse)

/-- Does `cs` start with `q`? -/
def startsWithChars : List Char → List Char → Bool
  | _, [] => true
  | [], _ :: _ => false
  | c :: cs, q :: qs => c == q && startsWithChars cs qs

/-- Does `s` contain `q` as a contiguous run? -/
def containsChars (q : List Char) : List Char → Bool
  | [] => startsWithChars [] q
  | c :: rest => startsWithChars (c :: rest) q || containsChars q rest

/-- JS `s.includes(q)` (substring test). -/
def jsIncludes (s q : String) : Bool := containsChars q.toList s.toList

/-- The name predicate of `applyFilters`:
`(a.name || "").toLowerCase().includes(q)`. -/
def nameMatches (q : String) (a : AppSummary) : Bool :=
  jsIncludes (jsOrDefault (a.name.getD "") "").toLower q

/-- `applyFilters()` from `src/app.js` lines 93–109, as a function of the
state it reads: the index's `apps` array, the search box value, and the
category selector value.  (The original writes `state.filtered` and
re-renders; its value is the list computed here.) -/
def applyFilters (apps : List AppSummary) (searchValue mode : String) :
    List AppSummary :=
  let q := (jsTrim (jsOrDefault searchValue "")).toLower
  let apps1 := if mode = "game" then apps.filter (fun a => a.type == some "game") else apps
  let apps2 := if mode = "dlc" then apps1.filter (fun a => a.type == some "dlc") else apps1
  let apps3 := if mode = "hasreqs" then apps2.filter (fun a => a.has_requirements) else apps2
  let apps4 := if q ≠ "" then apps3.filter (nameMatches q) else apps3
  apps4.take 200

/-- The four category modes named by the specification. -/
inductive FilterMode where
  | all
  | game
  | dlc
  | hasreqs
deriving DecidableEq, Repr

/-- The category selector value corresponding to each mode. -/
def FilterMode.value : FilterMode → String
  | .all => "all"
  | .game => "game"
  | .dlc => "dlc"
  | .hasreqs => "hasreqs"

/-- Category predicate as worded by the spec: `game`→type=="game",
`dlc`→type=="dlc", `hasreqs`→has_requirements==true, `all`→no filter. -/
def categoryKeep : FilterMode → AppSummary → Bool
  | .all => fun _ => true
  | .game => fun a => a.type == some "game"
  | .dlc => fun a => a.type == some "dlc"
  | .hasreqs => fun a => a.has_requirements

/-- The catalog filter as worded by the spec (for the refinement claim):
(a) filter by category mode, (b) case-insensitive substring filter on
`name` by the trimmed query, empty query filtering nothing, (c) truncate
to the first 200 matches in index order. -/
def specCatalogFilter (apps : List AppSummary) (query : String)
    (m : FilterMode) : List AppSummary :=
  let q := (jsTrim query).toLower
  let byCategory := apps.filter (categoryKeep m)
  let byText := if q = "" then byCategory else byCategory.filter (nameMatches q)
  byText.take 200

/-! ## JSON (model of the `JSON.stringify` / `JSON.parse` built-ins)

The profile store serializes through JSON.  The built-in pair is
modelled by a concrete printer and parser over a `Json` value type
covering the document forms this application reads and writes: `null`,
booleans, (decimal) numbers, strings and objects.  The printer emits
exactly what `JSON.stringify` emits on such values (insertion-order
keys, no whitespace, `"` and `\` escaped); the parser accepts the same
grammar and fails (`none`, modelling a thrown `SyntaxError`) on
anything else. -/

/-- A JSON value (strings kept as character lists). -/
inductive Json where
  | null
  | bool (b : Bool)
  | num (x : Dec)
  | str (s : List Char)
  | obj (fields : List (List Char × Json))
deriving Repr

/-- String-body escaping: `"` and `\` are escaped with a backslash. -/
def escChar (c : Char) : List Char :=
  if c = '"' ∨ c = '\\' then ['\\', c] else [c]

/-- A JSON string literal for `s`, quotes included. -/
def printStrChars (s : List Char) : List Char :=
  '"' :: (s.map escChar).flatten ++ ['"']

mutual

/-- Characters `JSON.stringify` produces for a `Json` value. -/
def printJsonChars : Json → List Char
  | .null => 'n' :: 'u' :: 'l' :: 'l' :: []
  | .bool true => 't' :: 'r' :: 'u' :: 'e' :: []
  | .bool false => 'f' :: 'a' :: 'l' :: 's' :: 'e' :: []
  | .num x => x.render
  | .str s => printStrChars s
  | .obj fs => '{' :: printFieldsChars fs ++ ['}']

/-- The comma-separated `"key":value` runs of an object body. -/
def printFieldsChars : List (List Char × Json) → List Char
  | [] => []
  | [(k, v)] => printStrChars k ++ ':' :: printJsonChars v
  | (k, v) :: fs => printStrChars k ++ ':' :: printJsonChars v ++ ',' :: printFieldsChars fs

end

/-- Body of a JSON string literal (after the opening quote): the decoded
characters and the rest of the input after the closing quote. -/
def parseStrBody : List Char → Option (List Char × List Char)
  | [] => none
  | c :: rest =>
    if c = '"' then some ([], rest)
    else if c = '\\' then
      match rest with
      | [] => none
      | c2 :: rest2 =>
        if c2 = '"' ∨ c2 = '\\' then
          (parseStrBody rest2).map (fun p => (c2 :: p.1, p.2))
        else none
    else (parseStrBody rest).map (fun p => (c :: p.1, p.2))

/-- Strip the literal `lit` from the front of `cs`. -/
def stripLit : List Char → List Char → Option (List Char)
  | [], cs => some cs
  | _ :: _, [] => none
  | l :: ls, c :: cs => if c = l then stripLit ls cs else none

/-- A JSON number literal: optional `-`, integer digits, optional
fraction.  Returns the `Dec` denoted and the rest of the input. -/
def parseNumber (cs : List Char) : Option (Dec × List Char) :=
  let sp : Bool × List Char := match cs with
    | c :: r => if c = '-' then (true, r) else (false, c :: r)
    | [] => (false, [])
  let ip := takeDigits sp.2
  if ip.1 = [] then none
  else
    match ip.2 with
    | [] => some (⟨if sp.1 then -(digitsVal ip.1 : ℤ) else (digitsVal ip.1 : ℤ), 0⟩, [])
    | c2 :: cs3 =>
      if c2 = '.' then
        let fp := takeDigits cs3
        if fp.1 = [] then none
        else
          let n : ℤ := digitsVal (ip.1 ++ fp.1)
          some (⟨if sp.1 then -n else n, fp.1.length⟩, fp.2)
      else
        some (⟨if sp.1 then -(digitsVal ip.1 : ℤ) else (digitsVal ip.1 : ℤ), 0⟩, c2 :: cs3)

mutual

/-- A JSON value at the front of `cs`; `fuel` bounds nesting and field
counts (the top level passes the input length, always enough). -/
def parseValue : ℕ → List Char → Option (Json × List Char)
  | 0, _ => none
  | _ + 1, [] => none
  | fuel + 1, c :: rest =>
    if c = 'n' then (stripLit ('u' :: 'l' :: 'l' :: []) rest).map (fun r => (.null, r))
    else if c = 't' then (stripLit ('r' :: 'u' :: 'e' :: []) rest).map (fun r => (.bool true, r))
    else if c = 'f' then (stripLit ('a' :: 'l' :: 's' :: 'e' :: []) rest).map (fun r => (.bool false, r))
    else if c = '"' then (parseStrBody rest).map (fun p => (.str p.1, p.2))
    else if c = '{' then
      match rest with
      | [] => none
      | r0 :: r1 =>
        if r0 = '}' then some (.obj [], r1)
        else (parseFields fuel (r0 :: r1)).map (fun p => (.obj p.1, p.2))
    else if c = '-' ∨ isDigitChar c then
      (parseNumber (c :: rest)).map (fun p => (.num p.1, p.2))
    else none

/-- The fields of a JSON object body, up to and including the closing
brace. -/
def parseFields : ℕ → List Char → Option (List (List Char × Json) × List Char)
  | 0, _ => none
  | _ + 1, [] => none
  | fuel + 1, c :: cs1 =>
    if c = '"' then
      match parseStrBody cs1 with
      | none => none
      | some (k, cs2) =>
        match cs2 with
        | [] => none
        | c2 :: cs3 =>
          if c2 = ':' then
            match parseValue fuel cs3 with
            | none => none
            | some (v, cs4) =>
              match cs4 with
              | [] => none
              | c4 :: cs5 =>
                if c4 = ',' then (parseFields fuel cs5).map (fun p => ((k, v) :: p.1, p.2))
                else if c4 = '}' then some ([(k, v)], cs5)
                else none
          else none
    else none

end

/-- `JSON.parse` on a whole document: parse one value and require the
input to be fully consumed; `none` models the thrown `SyntaxError`. -/
def parseJson (s : String) : Option Json :=
  match parseValue (s.toList.length + 1) s.toList with
  | some (j, []) => some j
  | _ => none

/-! ## The user profile and its store (`src/app.js` lines 31–47) -/

/-- The user profile object built by `readSpecsFromForm`. -/
structure Specs where
  cpu : Option String
  gpu : Option String
  ram_gb : Option Dec
  vram_gb : Option Dec
  storage_gb : Option Dec
deriving DecidableEq, Repr

/-- The JSON value of a profile, with the key order of
`readSpecsFromForm` (`JSON.stringify` keeps insertion order; `null`
fields serialize as JSON `null`). -/
def specsToJson (s : Specs) : Json :=
  .obj [ ("cpu".toList, (s.cpu.map (fun c => Json.str c.toList)).getD .null)
       , ("gpu".toList, (s.gpu.map (fun g => Json.str g.toList)).getD .null)
       , ("ram_gb".toList, (s.ram_gb.map Json.num).getD .null)
       , ("vram_gb".toList, (s.vram_gb.map Json.num).getD .null)
       , ("storage_gb".toList, (s.storage_gb.map Json.num).getD .null) ]

/-- `JSON.stringify` of a profile. -/
def stringifySpecs (s : Specs) : String :=
  String.mk (printJsonChars (specsToJson s))

/-- `localStorage`, modelled as a partial map from keys to strings. -/
def LocalStorage := String → Option String

/-- The one key the profile store uses. -/
def specsKey : String := "steamSpecChecker_specs"

/-- `localStorage.getItem`. -/
def getItem (ls : LocalStorage) (k : String) : Option String := ls k

/-- `localStorage.setItem` (replace entirely). -/
def setItem (k v : String) (ls : LocalStorage) : LocalStorage :=
  fun k' => if k' = k then some v else ls k'

/-- `localStorage.removeItem` (remove the key entirely). -/
def removeItem (k : String) (ls : LocalStorage) : LocalStorage :=
  fun k' => if k' = k then none else ls k'

/-- `loadSpecs()` from `src/app.js` lines 31–39: `null` for an absent or
falsy (empty) raw value, the parsed JSON otherwise; a parse failure is
caught and becomes `null`.  Total: every outcome is a returned value,
never an uncaught exception. -/
def loadSpecs (ls : LocalStorage) : Option Json :=
  match getItem ls specsKey with
  | none => none
  | some raw => if raw = "" then none else parseJson raw

/-- `saveSpecs(specs)` from `src/app.js` lines 41–43. -/
def saveSpecs (specs : Specs) (ls : LocalStorage) : LocalStorage :=
  setItem specsKey (stringifySpecs specs) ls

/-- `clearSpecs()` from `src/app.js` lines 45–47. -/
def clearSpecs (ls : LocalStorage) : LocalStorage :=
  removeItem specsKey ls

/-! ## The profile form reader (`src/app.js` lines 257–269) -/

/-- Decimal literal part of `Number()`: digits, optional fraction
(either side of the point may be empty but not both), optional
exponent, nothing else. -/
def parseDecimalLit (cs : List Char) : Option Dec :=
  let ip := takeDigits cs
  let fp : List ℕ × List Char := match ip.2 with
    | '.' :: rest => takeDigits rest
    | _ => ([], ip.2)
  if ip.1 = [] ∧ fp.1 = [] then none
  else
    let n : ℕ := digitsVal (ip.1 ++ fp.1)
    let e : ℕ := fp.1.length
    match fp.2 with
    | [] => some ⟨n, e⟩
    | 'e' :: r3 => parseExponent n e r3
    | 'E' :: r3 => parseExponent n e r3
    | _ => none
where
  /-- Exponent suffix: optional sign and digits, then end of input. -/
  parseExponent (n e : ℕ) (cs : List Char) : Option Dec :=
    let sp : Bool × List Char := match cs with
      | '-' :: r => (true, r)
      | '+' :: r => (false, r)
      | _ => (false, cs)
    match takeDigits sp.2 with
    | ([], _) => none
    | (ds, rest) =>
      if rest = [] then
        let k := digitsVal ds
        if sp.1 then some ⟨n, e + k⟩
        else if k ≤ e then some ⟨n, e - k⟩
        else some ⟨n * 10 ^ (k - e), 0⟩
      else none

/-- Result of the `Number()` built-in on a string. -/
inductive JsNum where
  | nan
  | posInf
  | negInf
  | fin (x : Dec)
deriving DecidableEq, Repr

/-- Model of the `Number()` built-in on strings: surrounding whitespace
is ignored; the empty (or all-whitespace) string converts to `0`; an
optionally signed `Infinity` or decimal literal converts accordingly;
anything else is `NaN`.  (Hex/octal/binary literal forms, which the
profile form never produces, are not modelled.) -/
def jsNumberOfString (s : String) : JsNum :=
  let cs := (jsTrim s).toList
  match cs with
  | [] => .fin ⟨0, 0⟩
  | _ =>
    let sp : Bool × List Char := match cs with
      | '-' :: r => (true, r)
      | '+' :: r => (false, r)
      | _ => (false, cs)
    if sp.2 = "Infinity".toList then (if sp.1 then .negInf else .posInf)
    else
      match parseDecimalLit sp.2 with
      | some d => .fin (if sp.1 then ⟨-d.m, d.e⟩ else d)
      | none => .nan

/-- The `toNum` helper of `readSpecsFromForm` (`src/app.js` lines
258–261): `Number(v)` if finite, else `null`. -/
def toNum (v : String) : Option Dec :=
  match jsNumberOfString v with
  | .fin d => some d
  | _ => none

/-- The five form field values read by `readSpecsFromForm`. -/
structure SpecForm where
  cpu : String
  gpu : String
  ram : String
  vram : String
  storage : String
deriving DecidableEq, Repr

/-- `v.trim() || null` on a text field. -/
def trimOrNull (v : String) : Option String :=
  if jsTrim v = "" then none else some (jsTrim v)

/-- `readSpecsFromForm()` from `src/app.js` lines 257–269. -/
def readSpecsFromForm (f : SpecForm) : Specs :=
  { cpu := trimOrNull f.cpu
  , gpu := trimOrNull f.gpu
  , ram_gb := toNum f.ram
  , vram_gb := toNum f.vram
  , storage_gb := toNum f.storage }

/-! ## The detail card badge (`src/app.js` lines 149–188) -/

/-- `userSpecs?.f` for a numeric profile field: `undefined` without a
profile, else the stored value (`null` or a number). -/
def userFieldVal (userSpecs : Option Specs) (f : Specs → Option Dec) : JsVal :=
  match userSpecs with
  | none => .undef
  | some s =>
    match f s with
    | none => .null
    | some d => .num d

/-- The summary-badge status computed by `renderReqCard` for a present
requirement record (`src/app.js` line 167): `bad` if any of the RAM,
VRAM and storage comparisons is `bad`, else `good`. -/
def renderReqCardStatus (req : Requirement) (userSpecs : Option Specs) : Status :=
  let ramCmp := compareNumeric (userFieldVal userSpecs (fun s => s.ram_gb)) req.ram_gb
  let vramCmp := compareNumeric (userFieldVal userSpecs (fun s => s.vram_gb)) req.vram_gb
  let stoCmp := compareNumeric (userFieldVal userSpecs (fun s => s.storage_gb)) req.storage_gb
  if ramCmp.status = .bad ∨ vramCmp.status = .bad ∨ stoCmp.status = .bad then .bad
  else .good

/-! ## Claim theorems -/

/-- C1: For every pair of comparator inputs: `unknown` (with the
"no numeric requirement" text, showing this case takes precedence) when
the required value is absent or not a number; `unknown` when the
required value is a number but the user value is absent or not a
number; `good` when both are numbers and the user value is at least the
required value (so equality counts as meeting, e.g. `compare(4,4)` and
`compare(5,4)` are `good`); `bad` when both are numbers and the user
value is below (`compare(3,4)` is `bad`); and a defined status results
for every input combination (the function is total). -/
theorem compareNumeric_spec :
    (∀ u r : JsVal, numAbsent r = true →
      compareNumeric u r = ⟨.unknown, "No numeric requirement"⟩) ∧
    (∀ u r : JsVal, numAbsent r = false → numAbsent u = true →
      compareNumeric u r = ⟨.unknown, "Your value missing"⟩) ∧
    (∀ du dr : Dec, dr.toRat ≤ du.toRat →
      (compareNumeric (.num du) (.num dr)).status = .good) ∧
    (∀ du dr : Dec, du.toRat < dr.toRat →
      (compareNumeric (.num du) (.num dr)).status = .bad) ∧
    (∀ u r : JsVal, (compareNumeric u r).status = .unknown ∨
      (compareNumeric u r).status = .good ∨ (compareNumeric u r).status = .bad) ∧
    (compareNumeric (.num ⟨4, 0⟩) (.num ⟨4, 0⟩)).status = .good ∧
    (compareNumeric (.num ⟨5, 0⟩) (.num ⟨4, 0⟩)).status = .good ∧
    (compareNumeric (.num ⟨3, 0⟩) (.num ⟨4, 0⟩)).status = .bad := by
  refine ⟨?_, ?_, ?_, ?_, ?_, by rfl, by rfl, by rfl⟩
  · intro u r h
    simp [compareNumeric, h]
  · intro u r hr hu
    simp [compareNumeric, hr, hu]
  · intro du dr h
    have hge := (jsGe_num_iff du dr).mpr h
    simp [compareNumeric, numAbsent, hge]
  · intro du dr h
    have hge : jsGe (.num du) (.num dr) = false := by
      rw [Bool.eq_false_iff]
      intro ht
      exact absurd ((jsGe_num_iff du dr).mp ht) (not_le.mpr h)
    simp [compareNumeric, numAbsent, hge]
  · intro u r
    cases hs : (compareNumeric u r).status
    · exact Or.inl rfl
    · exact Or.inr (Or.inl rfl)
    · exact Or.inr (Or.inr rfl)

/-- Witness for C1: the theorem applied at concrete inputs, its
hypotheses discharged there. -/
theorem compareNumeric_spec_witness :
    compareNumeric (.num ⟨3, 0⟩) .null = ⟨.unknown, "No numeric requirement"⟩ ∧
    compareNumeric .null (.num ⟨4, 0⟩) = ⟨.unknown, "Your value missing"⟩ ∧
    (compareNumeric (.num ⟨5, 0⟩) (.num ⟨4, 0⟩)).status = .good ∧
    (compareNumeric (.num ⟨3, 0⟩) (.num ⟨4, 0⟩)).status = .bad :=
  ⟨compareNumeric_spec.1 (.num ⟨3, 0⟩) .null (by rfl),
   compareNumeric_spec.2.1 .null (.num ⟨4, 0⟩) (by rfl) (by rfl),
   compareNumeric_spec.2.2.1 ⟨5, 0⟩ ⟨4, 0⟩ (by norm_num [Dec.toRat]),
   compareNumeric_spec.2.2.2.1 ⟨3, 0⟩ ⟨4, 0⟩ (by norm_num [Dec.toRat])⟩

/-- C2: For every appid `a`, the computed shard id is
`⌊a / shard_size⌋` (determinism is immediate: `shardForAppid` is a pure
function of the index and the appid, and nothing mutates
`index.shard_size`); in particular with `shard_size = 1000`, appid
`1245` resolves to shard `1`. -/
theorem shardForAppid_spec :
    (∀ (index : Index) (a : ℕ), 0 < index.shard_size →
      shardForAppid index a = ⌊(a : ℚ) / (index.shard_size : ℚ)⌋₊) ∧
    (∀ index : Index, index.shard_size = 1000 → shardForAppid index 1245 = 1) := by
  constructor
  · intro index a _
    rw [shardForAppid, Nat.floor_div_nat, Nat.floor_natCast]
  · intro index h
    rw [shardForAppid, h]

/-- Witness for C2: shard id of appid 1245 in an index with shard size
1000. -/
theorem shardForAppid_spec_witness :
    shardForAppid ⟨2, 1000, []⟩ 1245 = ⌊(1245 : ℚ) / ((1000 : ℕ) : ℚ)⌋₊ ∧
    shardForAppid ⟨2, 1000, []⟩ 1245 = 1 :=
  ⟨shardForAppid_spec.1 ⟨2, 1000, []⟩ 1245 (by norm_num),
   shardForAppid_spec.2 ⟨2, 1000, []⟩ rfl⟩

/-- C3: A second `loadShard` call for a shard id after a first
successful call performs no network fetch and returns exactly the data
of the first call, with the cache unchanged; and the cache is
write-once per key: an entry, once present, is preserved unchanged by
every later `loadShard` call. -/
theorem loadShard_cached_spec :
    (∀ (net : ℕ → Option Shard) (st : ShardCache) (s : ℕ) (d : Shard)
        (st' : ShardCache) (n : ℕ),
      loadShard net st s = (.ok d, st', n) →
      loadShard net st' s = (.ok d, st', 0)) ∧
    (∀ (net : ℕ → Option Shard) (st : ShardCache) (s k : ℕ) (v : Shard),
      cacheGet st k = some v → cacheGet (loadShard net st s).2.1 k = some v) := by
  constructor
  · intro net st s d st' n h
    unfold loadShard at h ⊢
    cases hc : cacheGet st s with
    | some d0 =>
      rw [hc] at h
      simp only [Prod.mk.injEq, Except.ok.injEq] at h
      obtain ⟨h1, h2, _⟩ := h
      subst h1; subst h2
      rw [hc]
    | none =>
      rw [hc] at h
      cases hn : net s with
      | none => rw [hn] at h; simp at h
      | some data =>
        rw [hn] at h
        simp only [Prod.mk.injEq, Except.ok.injEq] at h
        obtain ⟨h1, h2, _⟩ := h
        subst h1; subst h2
        have : cacheGet ((s, data) :: st) s = some data := by
          simp [cacheGet]
        rw [this]
  · intro net st s k v h
    unfold loadShard
    cases hc : cacheGet st s with
    | some d0 => exact h
    | none =>
      cases hn : net s with
      | none => exact h
      | some data =>
        simp only [cacheGet]
        split
        · next heq =>
          rw [heq] at h
          rw [h] at hc
          exact absurd hc (by simp)
        · exact h

/-- Witness for C3: a concrete first successful load, then the repeat
call, and preservation of a concrete cached entry. -/
theorem loadShard_cached_spec_witness :
    loadShard (fun _ => some []) [(1, ([] : Shard))] 1 = (.ok [], [(1, [])], 0) ∧
    cacheGet (loadShard (fun _ => some []) [(1, ([] : Shard))] 2).2.1 1 = some [] :=
  ⟨loadShard_cached_spec.1 (fun _ => some []) [] 1 [] [(1, [])] 1 (by rfl),
   loadShard_cached_spec.2 (fun _ => some []) [(1, [])] 2 1 [] (by rfl)⟩

/-- C8: For a shard id not in the cache whose fetch fails
(non-success response), `loadShard` raises the `FetchError` and leaves
the cache exactly as it was: no entry is stored for that id. -/
theorem loadShard_error_spec :
    ∀ (net : ℕ → Option Shard) (st : ShardCache) (s : ℕ),
      cacheGet st s = none → net s = none →
      loadShard net st s =
        (.error ("Failed to load shard " ++ String.mk (natChars s)), st, 1) := by
  intro net st s hc hn
  unfold loadShard
  rw [hc, hn]

/-- Witness for C8: a failing fetch of shard 7 from an empty cache. -/
theorem loadShard_error_spec_witness :
    loadShard (fun _ => none) [] 7 =
      (.error ("Failed to load shard " ++ String.mk (natChars 7)), [], 1) :=
  loadShard_error_spec (fun _ => none) [] 7 (by rfl) (by rfl)

/-- C9: For every present requirement record and user profile
state, the summary-badge status is `bad` exactly when at least one of
the RAM, VRAM and storage comparisons is `bad`; otherwise (including
when some or all comparisons are `unknown`) it is `good`. -/
theorem renderReqCardStatus_spec :
    ∀ (req : Requirement) (us : Option Specs),
      (renderReqCardStatus req us = .bad ↔
        ((compareNumeric (userFieldVal us fun s => s.ram_gb) req.ram_gb).status = .bad ∨
         (compareNumeric (userFieldVal us fun s => s.vram_gb) req.vram_gb).status = .bad ∨
         (compareNumeric (userFieldVal us fun s => s.storage_gb) req.storage_gb).status = .bad)) ∧
      (¬((compareNumeric (userFieldVal us fun s => s.ram_gb) req.ram_gb).status = .bad ∨
         (compareNumeric (userFieldVal us fun s => s.vram_gb) req.vram_gb).status = .bad ∨
         (compareNumeric (userFieldVal us fun s => s.storage_gb) req.storage_gb).status = .bad) →
        renderReqCardStatus req us = .good) := by
  intro req us
  constructor
  · by_cases h : ((compareNumeric (userFieldVal us fun s => s.ram_gb) req.ram_gb).status = .bad ∨
        (compareNumeric (userFieldVal us fun s => s.vram_gb) req.vram_gb).status = .bad ∨
        (compareNumeric (userFieldVal us fun s => s.storage_gb) req.storage_gb).status = .bad) <;>
      simp [renderReqCardStatus, h]
  · intro h
    simp [renderReqCardStatus, h]

/-- Witness for C9: a requirement with no numeric fields and no stored
profile compares to `good` (all three comparisons `unknown`). -/
theorem renderReqCardStatus_spec_witness :
    renderReqCardStatus
      ⟨none, none, none, .undef, .undef, .undef, .undef, .undef, none, none⟩
      none = .good :=
  (renderReqCardStatus_spec
      ⟨none, none, none, .undef, .undef, .undef, .undef, .undef, none, none⟩
      none).2 (by decide)

/-- `s || ""` is the identity on strings. -/
lemma jsOrDefault_empty (s : String) : jsOrDefault s "" = s := by
  unfold jsOrDefault
  split <;> simp_all

/-- C4: For every index, query and category mode, the catalog
filter equals the spec's pipeline: (a) keep the entries matching the
category mode (`game`/`dlc` by `type`, `hasreqs` by
`has_requirements`, `all` keeps everything), (b) keep the entries
whose name contains the trimmed query case-insensitively, an empty
trimmed query filtering nothing, (c) truncate to the first 200 matches
in index order. -/
theorem applyFilters_spec :
    ∀ (apps : List AppSummary) (sv : String) (m : FilterMode),
      applyFilters apps sv m.value = specCatalogFilter apps sv m := by
  intro apps sv m
  cases m <;>
    by_cases hq : (jsTrim sv).toLower = "" <;>
      simp +decide [applyFilters, specCatalogFilter, FilterMode.value, categoryKeep,
        jsOrDefault_empty, hq]

/-- The whole filter pipeline folded into a single predicate. -/
def keepPred (sv mode : String) : AppSummary → Bool := fun a =>
  ((!decide (mode = "game")) || (a.type == some "game")) &&
  ((!decide (mode = "dlc")) || (a.type == some "dlc")) &&
  ((!decide (mode = "hasreqs")) || a.has_requirements) &&
  ((decide ((jsTrim (jsOrDefault sv "")).toLower = "")) ||
    nameMatches ((jsTrim (jsOrDefault sv "")).toLower) a)

/-- `applyFilters` is one filter pass followed by one truncation. -/
lemma applyFilters_eq_filter (apps : List AppSummary) (sv mode : String) :
    applyFilters apps sv mode = (apps.filter (keepPred sv mode)).take 200 := by
  by_cases h1 : mode = "game"
  · subst h1
    by_cases hq : (jsTrim (jsOrDefault sv "")).toLower = "" <;>
      simp +decide [applyFilters, hq, List.filter_filter] <;>
      refine congrArg (List.take 200) (List.filter_congr ?_).symm <;>
      intro a _ <;> simp +decide [keepPred, hq, Bool.and_comm]
  · by_cases h2 : mode = "dlc"
    · subst h2
      by_cases hq : (jsTrim (jsOrDefault sv "")).toLower = "" <;>
        simp +decide [applyFilters, hq, List.filter_filter] <;>
        refine congrArg (List.take 200) (List.filter_congr ?_).symm <;>
        intro a _ <;> simp +decide [keepPred, hq, Bool.and_comm]
    · by_cases h3 : mode = "hasreqs"
      · subst h3
        by_cases hq : (jsTrim (jsOrDefault sv "")).toLower = "" <;>
          simp +decide [applyFilters, hq, List.filter_filter] <;>
          refine congrArg (List.take 200) (List.filter_congr ?_).symm <;>
          intro a _ <;> simp +decide [keepPred, hq, Bool.and_comm]
      · by_cases hq : (jsTrim (jsOrDefault sv "")).toLower = ""
        · simp [applyFilters, h1, h2, h3, hq]
          refine (congrArg (List.take 200) (List.filter_eq_self.mpr ?_)).symm
          intro a _
          simp [keepPred, h1, h2, h3, hq]
        · simp [applyFilters, h1, h2, h3, hq]
          refine congrArg (List.take 200) (List.filter_congr ?_)
          intro a _
          simp [keepPred, h1, h2, h3, hq]

/-- C5: For every index, query and mode: the filter is idempotent
(filtering its own output with the same query and mode returns it
unchanged), the result never exceeds 200 entries, and the result is an
order-preserving subset (a sublist) of the unfiltered index. -/
theorem applyFilters_props :
    ∀ (apps : List AppSummary) (sv mode : String),
      applyFilters (applyFilters apps sv mode) sv mode = applyFilters apps sv mode ∧
      (applyFilters apps sv mode).length ≤ 200 ∧
      (applyFilters apps sv mode).Sublist apps := by
  intro apps sv mode
  refine ⟨?_, ?_, ?_⟩
  · rw [applyFilters_eq_filter apps, applyFilters_eq_filter]
    have hall : ∀ a ∈ (apps.filter (keepPred sv mode)).take 200,
        keepPred sv mode a = true :=
      fun a ha => List.of_mem_filter (List.mem_of_mem_take ha)
    rw [List.filter_eq_self.mpr hall]
    refine List.take_of_length_le ?_
    rw [List.length_take]
    exact min_le_left _ _
  · rw [applyFilters_eq_filter, List.length_take]
    exact min_le_left _ _
  · rw [applyFilters_eq_filter]
    exact (List.take_sublist _ _).trans (List.filter_sublist _)

/-! ## Digit arithmetic lemmas

Facts about `digitsVal`, `msdDigits` and `padTo` used to prove that the
decimal printer and the number parser are mutually inverse. -/

lemma digitsVal_go (ds : List ℕ) : ∀ a : ℕ,
    ds.foldl (fun a d => 10 * a + d) a = a * 10 ^ ds.length + digitsVal ds := by
  induction ds with
  | nil => intro a; simp [digitsVal]
  | cons d ds ih =>
    intro a
    have hd : digitsVal (d :: ds) = d * 10 ^ ds.length + digitsVal ds := by
      show List.foldl _ (10 * 0 + d) ds = _
      rw [ih]
      ring_nf
    show List.foldl _ (10 * a + d) ds = _
    rw [ih, hd, List.length_cons, pow_succ]
    ring

lemma digitsVal_cons (d : ℕ) (ds : List ℕ) :
    digitsVal (d :: ds) = d * 10 ^ ds.length + digitsVal ds := by
  show List.foldl _ (10 * 0 + d) ds = _
  rw [digitsVal_go]
  ring_nf

lemma digitsVal_append (xs ys : List ℕ) :
    digitsVal (xs ++ ys) = digitsVal xs * 10 ^ ys.length + digitsVal ys := by
  unfold digitsVal
  rw [List.foldl_append]
  exact digitsVal_go ys _

lemma digitsVal_replicate_zero (k : ℕ) : digitsVal (List.replicate k 0) = 0 := by
  induction k with
  | zero => rfl
  | succ k ih => rw [List.replicate_succ, digitsVal_cons, ih]; ring

lemma digitsVal_padTo (k : ℕ) (ds : List ℕ) : digitsVal (padTo k ds) = digitsVal ds := by
  rw [padTo, digitsVal_append, digitsVal_replicate_zero]
  ring

lemma msdDigitsAux_eq (fuel : ℕ) : ∀ n : ℕ, n ≤ fuel →
    msdDigitsAux fuel n = (Nat.digits 10 n).reverse := by
  induction fuel with
  | zero =>
    intro n hn
    interval_cases n
    simp [msdDigitsAux, Nat.digits_zero]
  | succ fuel ih =>
    intro n hn
    match n with
    | 0 => simp [msdDigitsAux, Nat.digits_zero]
    | n + 1 =>
      show msdDigitsAux fuel ((n + 1) / 10) ++ [(n + 1) % 10] = _
      rw [ih ((n + 1) / 10) (by omega), Nat.digits_def' (by norm_num) (Nat.succ_pos n),
        List.reverse_cons]

lemma digitsVal_reverse_ofDigits (L : List ℕ) :
    digitsVal L.reverse = Nat.ofDigits 10 L := by
  induction L with
  | nil => rfl
  | cons d L ih =>
    rw [List.reverse_cons, digitsVal_append, ih, Nat.ofDigits_cons]
    simp [digitsVal_cons, digitsVal]
    ring

lemma digitsVal_msdDigits (n : ℕ) : digitsVal (msdDigits n) = n := by
  rw [msdDigits, msdDigitsAux_eq n n le_rfl, digitsVal_reverse_ofDigits,
    Nat.ofDigits_digits]

lemma msdDigits_lt (n : ℕ) : ∀ d ∈ msdDigits n, d < 10 := by
  intro d hd
  rw [msdDigits, msdDigitsAux_eq n n le_rfl, List.mem_reverse] at hd
  exact Nat.digits_lt_base (by norm_num) hd

lemma padTo_lt (k : ℕ) (ds : List ℕ) (h : ∀ d ∈ ds, d < 10) :
    ∀ d ∈ padTo k ds, d < 10 := by
  intro d hd
  rw [padTo, List.mem_append] at hd
  rcases hd with hd | hd
  · rw [List.eq_of_mem_replicate hd]; norm_num
  · exact h d hd

lemma padTo_length (k : ℕ) (ds : List ℕ) : k ≤ (padTo k ds).length := by
  rw [padTo, List.length_append, List.length_replicate]
  omega

lemma digitChar_facts (d : ℕ) (h : d < 10) :
    isDigitChar (digitChar d) = true ∧ charDigit (digitChar d) = d ∧
      digitChar d ≠ '-' := by
  interval_cases d <;> exact ⟨rfl, rfl, by decide⟩

/-- The input's head, if any, is not a digit character. -/
def headNotDigit (cs : List Char) : Prop :=
  ∀ c, cs.head? = some c → isDigitChar c = false

lemma headNotDigit_nil : headNotDigit [] := by
  intro c hc
  simp at hc

lemma takeDigits_map_append (ds : List ℕ) (rest : List Char)
    (h : ∀ d ∈ ds, d < 10) (hrest : headNotDigit rest) :
    takeDigits (ds.map digitChar ++ rest) = (ds, rest) := by
  induction ds with
  | nil =>
    cases rest with
    | nil => rfl
    | cons c r =>
      have := hrest c rfl
      simp [takeDigits, this]
  | cons d ds ih =>
    have hd := digitChar_facts d (h d (by simp))
    simp only [List.map_cons, List.cons_append, takeDigits, hd.1, if_true,
      List.append_eq]
    rw [ih (fun x hx => h x (by simp [hx]))]
    simp [hd.2.1]

lemma Dec.render_decomp (x : Dec) :
    ∃ intDs fracDs : List ℕ,
      (∀ d ∈ intDs, d < 10) ∧ (∀ d ∈ fracDs, d < 10) ∧
      intDs ≠ [] ∧ fracDs.length = x.e ∧
      digitsVal (intDs ++ fracDs) = x.m.natAbs ∧
      x.render = (if x.m < 0 then ['-'] else []) ++ intDs.map digitChar ++
        (if x.e = 0 then [] else '.' :: fracDs.map digitChar) := by
  set ds := padTo (x.e + 1) (msdDigits x.m.natAbs) with hds
  have hlen : x.e + 1 ≤ ds.length := padTo_length _ _
  have hbound : ∀ d ∈ ds, d < 10 := padTo_lt _ _ (msdDigits_lt _)
  refine ⟨ds.take (ds.length - x.e), ds.drop (ds.length - x.e), ?_, ?_, ?_, ?_, ?_, ?_⟩
  · exact fun d hd => hbound d (List.mem_of_mem_take hd)
  · exact fun d hd => hbound d (List.mem_of_mem_drop hd)
  · have : (ds.take (ds.length - x.e)).length = ds.length - x.e := by
      rw [List.length_take]
      omega
    intro hnil
    rw [hnil] at this
    simp at this
    omega
  · rw [List.length_drop]
    omega
  · rw [List.take_append_drop, hds, digitsVal_padTo, digitsVal_msdDigits]
  · rfl

lemma headNotDigit_dot (zs : List Char) : headNotDigit ('.' :: zs) := by
  intro c hc
  simp at hc
  subst hc
  rfl

lemma parseNumber_print (neg : Bool) (intDs fracDs : List ℕ) (e : ℕ) (rest : List Char)
    (hI : ∀ d ∈ intDs, d < 10) (hF : ∀ d ∈ fracDs, d < 10)
    (hIne : intDs ≠ []) (hFlen : fracDs.length = e)
    (h1 : headNotDigit rest) (h2 : ∀ c, rest.head? = some c → c ≠ '.') :
    parseNumber ((if neg then ['-'] else []) ++ intDs.map digitChar ++
        (if e = 0 then [] else '.' :: fracDs.map digitChar) ++ rest) =
      some (⟨if neg then -(digitsVal (intDs ++ fracDs) : ℤ)
             else (digitsVal (intDs ++ fracDs) : ℤ), e⟩, rest) := by
  obtain ⟨d0, tl, rfl⟩ : ∃ d0 tl, intDs = d0 :: tl := by
    cases intDs with
    | nil => exact absurd rfl hIne
    | cons a b => exact ⟨a, b, rfl⟩
  have hd0 := digitChar_facts d0 (hI d0 (by simp))
  by_cases he : e = 0
  · -- no fractional part
    subst he
    have hFnil : fracDs = [] := List.length_eq_zero.mp hFlen
    subst hFnil
    have htake : takeDigits (List.map digitChar (d0 :: tl) ++ rest) = (d0 :: tl, rest) :=
      takeDigits_map_append _ _ hI h1
    simp only [List.map_cons, List.cons_append, List.append_nil] at htake
    cases rest with
    | nil =>
      simp only [List.append_nil] at htake
      cases neg <;>
        simp [parseNumber, htake, hd0.2.2, hIne]
    | cons c r =>
      have hc := h2 c rfl
      cases neg <;>
        simp [parseNumber, htake, hd0.2.2, hIne, hc]
  · -- with a fractional part
    have hFne : fracDs ≠ [] := by
      intro hnil
      rw [hnil] at hFlen
      exact he hFlen.symm
    have htake : takeDigits (List.map digitChar (d0 :: tl) ++
        ('.' :: (List.map digitChar fracDs ++ rest))) =
        (d0 :: tl, '.' :: (List.map digitChar fracDs ++ rest)) :=
      takeDigits_map_append _ _ hI (headNotDigit_dot _)
    have htake2 : takeDigits (List.map digitChar fracDs ++ rest) = (fracDs, rest) :=
      takeDigits_map_append _ _ hF h1
    simp only [List.map_cons, List.cons_append] at htake
    cases neg <;>
      simp [parseNumber, he, htake, htake2, hd0.2.2, hIne, hFne, hFlen]

lemma parseNumber_render (x : Dec) (rest : List Char)
    (h1 : headNotDigit rest) (h2 : ∀ c, rest.head? = some c → c ≠ '.') :
    parseNumber (x.render ++ rest) = some (x, rest) := by
  obtain ⟨intDs, fracDs, hI, hF, hIne, hFlen, hval, hrender⟩ := Dec.render_decomp x
  obtain ⟨m, e⟩ := x
  simp only at hFlen hval hrender
  rw [hrender]
  by_cases hm : m < 0
  · rw [if_pos hm]
    have h := parseNumber_print true intDs fracDs e rest hI hF hIne hFlen h1 h2
    simp only [if_true, List.append_assoc, List.nil_append, List.singleton_append,
      List.cons_append] at h
    simp only [List.append_assoc, List.nil_append, List.singleton_append,
      List.cons_append]
    rw [h]
    have hmval : -(digitsVal (intDs ++ fracDs) : ℤ) = m := by omega
    rw [hmval]
  · rw [if_neg hm]
    have h := parseNumber_print false intDs fracDs e rest hI hF hIne hFlen h1 h2
    simp only [if_false, Bool.false_eq_true, List.append_assoc, List.nil_append,
      List.singleton_append, List.cons_append] at h
    simp only [List.append_assoc, List.nil_append, List.singleton_append,
      List.cons_append]
    rw [h]
    have hmval : (digitsVal (intDs ++ fracDs) : ℤ) = m := by omega
    rw [hmval]

lemma stripLit_append (lit rest : List Char) : stripLit lit (lit ++ rest) = some rest := by
  induction lit with
  | nil => rfl
  | cons l ls ih => simp [stripLit, ih]

lemma parseStrBody_escape (s rest : List Char) :
    parseStrBody ((s.map escChar).flatten ++ '"' :: rest) = some (s, rest) := by
  induction s with
  | nil =>
    simp only [List.map_nil, List.flatten_nil, List.nil_append]
    rw [parseStrBody.eq_def]
    simp +decide
  | cons c s ih =>
    by_cases hc : c = '"' ∨ c = '\\'
    · simp only [List.map_cons, List.flatten_cons, escChar, if_pos hc,
        List.cons_append, List.append_assoc]
      rw [parseStrBody.eq_def]
      simp +decide [hc, ih]
    · obtain ⟨hc1, hc2⟩ := not_or.mp hc
      simp only [List.map_cons, List.flatten_cons, escChar, if_neg hc,
        List.singleton_append, List.cons_append, List.append_assoc]
      rw [parseStrBody.eq_def]
      simp [hc1, hc2, ih]

/-- Atomic JSON values: everything except objects. -/
def Json.isAtom : Json → Prop
  | .obj _ => False
  | _ => True

lemma digit_not_special {c : Char} (h : isDigitChar c = true) :
    c ≠ 'n' ∧ c ≠ 't' ∧ c ≠ 'f' ∧ c ≠ '"' ∧ c ≠ '{' := by
  refine ⟨?_, ?_, ?_, ?_, ?_⟩ <;>
    · intro he
      rw [he] at h
      exact absurd h (by decide)

lemma render_head (x : Dec) : ∃ c cs, x.render = c :: cs ∧
    (c = '-' ∨ isDigitChar c = true) := by
  obtain ⟨intDs, fracDs, hI, hF, hIne, hFlen, hval, hrender⟩ := Dec.render_decomp x
  obtain ⟨d0, tl, rfl⟩ : ∃ d0 tl, intDs = d0 :: tl := by
    cases intDs with
    | nil => exact absurd rfl hIne
    | cons a b => exact ⟨a, b, rfl⟩
  have hd0 := digitChar_facts d0 (hI d0 (by simp))
  by_cases hm : x.m < 0
  · refine ⟨'-', List.map digitChar (d0 :: tl) ++
      (if x.e = 0 then [] else '.' :: List.map digitChar fracDs), ?_, Or.inl rfl⟩
    rw [hrender, if_pos hm]
    simp
  · refine ⟨digitChar d0, List.map digitChar tl ++
      (if x.e = 0 then [] else '.' :: List.map digitChar fracDs), ?_, Or.inr hd0.1⟩
    rw [hrender, if_neg hm]
    simp

lemma parseValue_atom (fuel : ℕ) (v : Json) (rest : List Char) (hv : v.isAtom)
    (hnum : ∀ x, v = .num x →
      headNotDigit rest ∧ ∀ c, rest.head? = some c → c ≠ '.') :
    parseValue (fuel + 1) (printJsonChars v ++ rest) = some (v, rest) := by
  cases v with
  | null =>
    have h := stripLit_append ('u' :: 'l' :: 'l' :: []) rest
    simp only [List.cons_append, List.nil_append] at h
    simp +decide [printJsonChars, parseValue, h]
  | bool b =>
    have ht := stripLit_append ('r' :: 'u' :: 'e' :: []) rest
    have hf := stripLit_append ('a' :: 'l' :: 's' :: 'e' :: []) rest
    simp only [List.cons_append, List.nil_append] at ht hf
    cases b <;> simp +decide [printJsonChars, parseValue, ht, hf]
  | str s =>
    simp only [printJsonChars, printStrChars, List.cons_append, List.append_assoc]
    rw [parseValue.eq_def]
    simp +decide [parseStrBody_escape]
  | num x =>
    obtain ⟨c, cs, hrx, hc⟩ := render_head x
    have hdig : c = '-' ∨ isDigitChar c = true := hc
    have hspec : c ≠ 'n' ∧ c ≠ 't' ∧ c ≠ 'f' ∧ c ≠ '"' ∧ c ≠ '{' := by
      rcases hc with hc | hc
      · subst hc
        exact ⟨by decide, by decide, by decide, by decide, by decide⟩
      · exact digit_not_special hc
    have hpn := parseNumber_render x rest (hnum x rfl).1 (hnum x rfl).2
    rw [hrx] at hpn
    simp only [printJsonChars, hrx, List.cons_append]
    rw [parseValue.eq_def]
    simp only [if_neg hspec.1, if_neg hspec.2.1, if_neg hspec.2.2.1,
      if_neg hspec.2.2.2.1, if_neg hspec.2.2.2.2]
    rw [if_pos (by rcases hdig with h | h; exact Or.inl h; exact Or.inr h)]
    simp only [List.cons_append] at hpn
    rw [hpn]
    rfl
  | obj fs => exact absurd hv (by simp [Json.isAtom])

lemma headNotDigit_cons (c : Char) (zs : List Char) (h : isDigitChar c = false) :
    headNotDigit (c :: zs) := by
  intro c' hc'
  simp at hc'
  subst hc'
  exact h

lemma headNotDot_cons (c : Char) (zs : List Char) (h : c ≠ '.') :
    ∀ c', (c :: zs).head? = some c' → c' ≠ '.' := by
  intro c' hc'
  simp at hc'
  subst hc'
  exact h

lemma parseFields_print (fs : List (List Char × Json)) :
    ∀ (fuel : ℕ) (rest : List Char),
      fs ≠ [] → (∀ kv ∈ fs, Json.isAtom kv.2) → fs.length + 1 ≤ fuel →
      parseFields fuel (printFieldsChars fs ++ '}' :: rest) = some (fs, rest) := by
  induction fs with
  | nil =>
    intro fuel rest hne _ _
    exact absurd rfl hne
  | cons kv fs ih =>
    intro fuel rest _ hatoms hfuel
    obtain ⟨k, v⟩ := kv
    obtain ⟨f', rfl⟩ : ∃ f', fuel = f' + 1 + 1 := ⟨fuel - 2, by simp at hfuel; omega⟩
    have hv : Json.isAtom v := hatoms (k, v) (by simp)
    cases fs with
    | nil =>
      have hstr := parseStrBody_escape k (':' :: (printJsonChars v ++ '}' :: rest))
      have hval := parseValue_atom f' v ('}' :: rest) hv
        (fun x _ => ⟨headNotDigit_cons _ _ (by decide), headNotDot_cons _ _ (by decide)⟩)
      rw [printFieldsChars]
      simp only [printStrChars, List.cons_append, List.append_assoc, List.nil_append]
      rw [parseFields.eq_def]
      simp +decide [hstr, hval]
    | cons kv2 fs2 =>
      have hstr := parseStrBody_escape k
        (':' :: (printJsonChars v ++ ',' :: (printFieldsChars (kv2 :: fs2) ++ '}' :: rest)))
      have hval := parseValue_atom f' v
        (',' :: (printFieldsChars (kv2 :: fs2) ++ '}' :: rest)) hv
        (fun x _ => ⟨headNotDigit_cons _ _ (by decide), headNotDot_cons _ _ (by decide)⟩)
      have hrec := ih (f' + 1) rest (by simp)
        (fun kv hkv => hatoms kv (by simp [hkv]))
        (by simp at hfuel ⊢; omega)
      rw [printFieldsChars]
      simp only [printStrChars, List.cons_append, List.append_assoc, List.nil_append]
      rw [parseFields.eq_def]
      simp +decide [hstr, hval, hrec]
      simp

lemma printStrChars_length (s : List Char) : 2 ≤ (printStrChars s).length := by
  simp [printStrChars]

lemma printFieldsChars_length (fs : List (List Char × Json)) :
    fs.length ≤ (printFieldsChars fs).length := by
  induction fs with
  | nil => simp [printFieldsChars]
  | cons kv fs ih =>
    obtain ⟨k, v⟩ := kv
    have hk := printStrChars_length k
    cases fs with
    | nil =>
      rw [printFieldsChars]
      simp
      omega
    | cons kv2 fs2 =>
      rw [printFieldsChars]
      · simp only [List.length_cons, List.length_append] at ih ⊢
        omega
      · simp

lemma printFieldsChars_head (k0 : List Char) (v0 : Json) (fs0 : List (List Char × Json)) :
    ∃ tail, printFieldsChars ((k0, v0) :: fs0) = '"' :: tail := by
  cases fs0 with
  | nil =>
    rw [printFieldsChars, printStrChars]
    simp only [List.cons_append, List.append_assoc]
    exact ⟨_, rfl⟩
  | cons kv2 fs2 =>
    rw [printFieldsChars, printStrChars]
    · simp only [List.cons_append, List.append_assoc]
      exact ⟨_, rfl⟩
    · simp

lemma parseValue_obj (fuel : ℕ) (fs : List (List Char × Json)) (rest : List Char)
    (hne : fs ≠ []) (hatoms : ∀ kv ∈ fs, Json.isAtom kv.2)
    (hfuel : fs.length + 1 ≤ fuel) :
    parseValue (fuel + 1) (printJsonChars (Json.obj fs) ++ rest) =
      some (Json.obj fs, rest) := by
  obtain ⟨⟨k0, v0⟩, fs0, rfl⟩ : ∃ kv0 fs0, fs = kv0 :: fs0 := by
    cases fs with
    | nil => exact absurd rfl hne
    | cons a b => exact ⟨a, b, rfl⟩
  obtain ⟨tail, hpf⟩ := printFieldsChars_head k0 v0 fs0
  have hfields := parseFields_print ((k0, v0) :: fs0) fuel rest hne hatoms hfuel
  simp only [hpf, List.cons_append, List.append_assoc] at hfields
  rw [show printJsonChars (Json.obj ((k0, v0) :: fs0)) =
    '{' :: (printFieldsChars ((k0, v0) :: fs0) ++ ['}']) from rfl]
  simp only [hpf, List.cons_append, List.append_assoc, List.singleton_append]
  rw [parseValue.eq_def]
  simp +decide [hfields]

lemma parseJson_mk (cs : List Char) :
    parseJson (String.mk cs) =
      (match parseValue (cs.length + 1) cs with
       | some (j, []) => some j
       | _ => none) := rfl

lemma parseJson_print_obj (fs : List (List Char × Json)) (hne : fs ≠ [])
    (hatoms : ∀ kv ∈ fs, Json.isAtom kv.2) :
    parseJson (String.mk (printJsonChars (Json.obj fs))) = some (Json.obj fs) := by
  rw [parseJson_mk]
  have hlen : fs.length + 1 ≤ (printJsonChars (Json.obj fs)).length - 1 := by
    rw [show printJsonChars (Json.obj fs) =
      '{' :: (printFieldsChars fs ++ ['}']) from rfl]
    have := printFieldsChars_length fs
    simp
    omega
  obtain ⟨L, hL⟩ : ∃ L, (printJsonChars (Json.obj fs)).length = L + 1 := by
    refine ⟨(printJsonChars (Json.obj fs)).length - 1, ?_⟩
    rw [show printJsonChars (Json.obj fs) =
      '{' :: (printFieldsChars fs ++ ['}']) from rfl]
    simp
  rw [hL]
  have hobj := parseValue_obj (L + 1) fs [] hne hatoms (by omega)
  rw [List.append_nil] at hobj
  rw [hobj]

lemma optJson_atom {α : Type} (o : Option α) (f : α → Json)
    (h : ∀ a, Json.isAtom (f a)) : Json.isAtom ((o.map f).getD .null) := by
  cases o with
  | none => trivial
  | some a => exact h a

lemma specsToJson_atoms (s : Specs) :
    ∀ kv ∈ [ ("cpu".toList, (s.cpu.map (fun c => Json.str c.toList)).getD .null)
           , ("gpu".toList, (s.gpu.map (fun g => Json.str g.toList)).getD .null)
           , ("ram_gb".toList, (s.ram_gb.map Json.num).getD .null)
           , ("vram_gb".toList, (s.vram_gb.map Json.num).getD .null)
           , ("storage_gb".toList, (s.storage_gb.map Json.num).getD .null) ],
      Json.isAtom kv.2 := by
  intro kv hkv
  simp only [List.mem_cons, List.not_mem_nil, or_false] at hkv
  rcases hkv with h | h | h | h | h <;> subst h <;>
    exact optJson_atom _ _ (fun a => trivial)

lemma stringifySpecs_ne_empty (s : Specs) : stringifySpecs s ≠ "" := by
  intro h
  have h2 : printJsonChars (specsToJson s) = [] := congrArg String.toList h
  rw [show printJsonChars (specsToJson s) =
    '{' :: (printFieldsChars [ ("cpu".toList, (s.cpu.map (fun c => Json.str c.toList)).getD .null)
           , ("gpu".toList, (s.gpu.map (fun g => Json.str g.toList)).getD .null)
           , ("ram_gb".toList, (s.ram_gb.map Json.num).getD .null)
           , ("vram_gb".toList, (s.vram_gb.map Json.num).getD .null)
           , ("storage_gb".toList, (s.storage_gb.map Json.num).getD .null) ] ++ ['}'])
    from rfl] at h2
  exact absurd h2 (by simp)

lemma parseJson_stringifySpecs (s : Specs) :
    parseJson (stringifySpecs s) = some (specsToJson s) :=
  parseJson_print_obj _ (by simp) (specsToJson_atoms s)

lemma optStr_inj (o1 o2 : Option String)
    (h : (o1.map (fun c => Json.str c.toList)).getD .null =
         (o2.map (fun c => Json.str c.toList)).getD .null) : o1 = o2 := by
  cases o1 with
  | none =>
    cases o2 with
    | none => rfl
    | some b => simp at h
  | some a =>
    cases o2 with
    | none => simp at h
    | some b =>
      simp at h
      obtain ⟨la⟩ := a
      obtain ⟨lb⟩ := b
      have hl : la = lb := h
      subst hl
      rfl

lemma optNum_inj (o1 o2 : Option Dec)
    (h : (o1.map Json.num).getD .null = (o2.map Json.num).getD .null) : o1 = o2 := by
  cases o1 with
  | none =>
    cases o2 with
    | none => rfl
    | some b => simp at h
  | some a =>
    cases o2 with
    | none => simp at h
    | some b =>
      simp at h
      rw [h]

/-- C6: For every user profile value and every prior storage state,
saving the profile and then loading returns exactly the JSON value of
the saved profile (and the profile-to-JSON map is injective, so the
loaded value determines the profile); clearing the profile and then
loading returns `none`. -/
theorem specs_roundtrip_spec :
    (∀ (specs : Specs) (ls : LocalStorage),
      loadSpecs (saveSpecs specs ls) = some (specsToJson specs)) ∧
    (∀ ls : LocalStorage, loadSpecs (clearSpecs ls) = none) ∧
    (∀ s1 s2 : Specs, specsToJson s1 = specsToJson s2 → s1 = s2) := by
  refine ⟨?_, ?_, ?_⟩
  · intro specs ls
    simp only [loadSpecs, saveSpecs, setItem, getItem, if_pos rfl, if_true]
    rw [if_neg (stringifySpecs_ne_empty specs)]
    exact parseJson_stringifySpecs specs
  · intro ls
    simp only [loadSpecs, clearSpecs, removeItem, getItem, if_pos rfl, if_true]
  · intro s1 s2 h
    obtain ⟨c1, g1, r1, v1, t1⟩ := s1
    obtain ⟨c2, g2, r2, v2, t2⟩ := s2
    simp [specsToJson] at h
    obtain ⟨h1, h2, h3, h4, h5⟩ := h
    simp only [Specs.mk.injEq]
    exact ⟨optStr_inj _ _ h1, optStr_inj _ _ h2, optNum_inj _ _ h3,
      optNum_inj _ _ h4, optNum_inj _ _ h5⟩

/-- C7: For every persisted content of the profile storage key the
profile load returns without failing (it is a total function into
`Option`): it returns `none` when the key is absent and `none` when the
stored content does not parse as JSON, degrading silently to the
"no profile" state. -/
theorem loadSpecs_total_spec :
    (∀ ls : LocalStorage, getItem ls specsKey = none → loadSpecs ls = none) ∧
    (∀ (ls : LocalStorage) (raw : String),
      getItem ls specsKey = some raw → parseJson raw = none → loadSpecs ls = none) ∧
    (∀ ls : LocalStorage, loadSpecs ls = none ∨ ∃ j, loadSpecs ls = some j) := by
  refine ⟨?_, ?_, ?_⟩
  · intro ls h
    simp only [loadSpecs, h]
  · intro ls raw hr hp
    simp only [loadSpecs, hr]
    by_cases he : raw = "" <;> simp [he, hp]
  · intro ls
    cases h : loadSpecs ls with
    | none => exact Or.inl rfl
    | some j => exact Or.inr ⟨j, rfl⟩

/-- Witness for C6: the round trip, clear and injectivity at a concrete
profile and an empty store. -/
theorem specs_roundtrip_spec_witness :
    loadSpecs (saveSpecs ⟨some "i7", none, some ⟨16, 0⟩, some ⟨15, 1⟩, none⟩
        (fun _ => none)) =
      some (specsToJson ⟨some "i7", none, some ⟨16, 0⟩, some ⟨15, 1⟩, none⟩) ∧
    loadSpecs (clearSpecs (fun _ => none)) = none ∧
    (⟨some "i7", none, some ⟨16, 0⟩, some ⟨15, 1⟩, none⟩ : Specs) =
      ⟨some "i7", none, some ⟨16, 0⟩, some ⟨15, 1⟩, none⟩ :=
  ⟨specs_roundtrip_spec.1 ⟨some "i7", none, some ⟨16, 0⟩, some ⟨15, 1⟩, none⟩ (fun _ => none),
   specs_roundtrip_spec.2.1 (fun _ => none),
   specs_roundtrip_spec.2.2 _ _ rfl⟩

/-- Witness for C7: an absent key and a malformed stored value both load
as `none`. -/
theorem loadSpecs_total_spec_witness :
    loadSpecs (fun _ => none) = none ∧
    loadSpecs (fun k => if k = specsKey then some "not json" else none) = none :=
  ⟨loadSpecs_total_spec.1 (fun _ => none) rfl,
   loadSpecs_total_spec.2.1 (fun k => if k = specsKey then some "not json" else none)
     "not json" (by rfl) (by rfl)⟩

/-- C10: Reading the profile form converts an empty numeric field to the
number `0` rather than to `null` (because `Number("") = 0`, which is
finite), so an untouched numeric field is saved as "has 0 GB"; `null`
results only from input that does not denote a finite number (and such
input is never the empty string). -/
theorem readSpecsFromForm_spec :
    toNum "" = some ⟨0, 0⟩ ∧
    (∀ f : SpecForm, f.ram = "" → (readSpecsFromForm f).ram_gb = some ⟨0, 0⟩) ∧
    (∀ f : SpecForm, f.vram = "" → (readSpecsFromForm f).vram_gb = some ⟨0, 0⟩) ∧
    (∀ f : SpecForm, f.storage = "" → (readSpecsFromForm f).storage_gb = some ⟨0, 0⟩) ∧
    (∀ v : String, toNum v = none →
      v ≠ "" ∧ ∀ d : Dec, jsNumberOfString v ≠ .fin d) := by
  refine ⟨by rfl, ?_, ?_, ?_, ?_⟩
  · intro f h
    show toNum f.ram = _
    rw [h]
    rfl
  · intro f h
    show toNum f.vram = _
    rw [h]
    rfl
  · intro f h
    show toNum f.storage = _
    rw [h]
    rfl
  · intro v h
    constructor
    · intro he
      rw [he] at h
      exact absurd h (by decide)
    · intro d hd
      rw [toNum, hd] at h
      exact absurd h (by simp)

/-- Witness for C10: a form whose RAM field is empty reads back RAM 0; a
non-numeric string converts to `null`. -/
theorem readSpecsFromForm_spec_witness :
    (readSpecsFromForm ⟨"i7", "gtx", "", "8", "0.5"⟩).ram_gb = some ⟨0, 0⟩ ∧
    ("abc" ≠ "" ∧ ∀ d : Dec, jsNumberOfString "abc" ≠ .fin d) :=
  ⟨readSpecsFromForm_spec.2.1 ⟨"i7", "gtx", "", "8", "0.5"⟩ rfl,
   readSpecsFromForm_spec.2.2.2.2 "abc" (by rfl)⟩
